import Mathlib

/-!
Verification development for the codalysis concurrent extraction pipeline.

Shallow embedding of the pipeline's core functions:
  * `src/model.py`      — `get_response` (retry loop, code-fence stripping);
  * `src/token_utils.py`— `get_file_tokens` (token-budget selection);
  * `src/processing.py` — `process_function_description`,
    `process_file_description`, `process_file`, `process_repo`,
    `read_output`;
together with a small-step model of the `asyncio.Semaphore` admission
control used by `process_file` / `process_repo`.

External effects (the LLM call, pydantic validation, the tokenizer,
filesystem writes) are modelled as oracle parameters returning
`Except String _`: `.error e` means the Python call raised an exception
carrying message `e`.  Response texts are modelled as `List Char` so that
the line splitting performed by `get_response` is executable in the kernel.
-/

namespace Codalysis

/-! ### Character-list string helpers

`splitLines` mirrors Python `str.split('\n')` and `joinLines` mirrors
`'\n'.join(...)`; both are total structural recursions over the character
list of the text. -/

/-- Python `s.split('\n')`: splits a character list on newline characters;
always returns at least one (possibly empty) line. -/
def splitLines : List Char → List (List Char)
  | [] => [[]]
  | c :: cs =>
    if c = '\n' then [] :: splitLines cs
    else
      match splitLines cs with
      | [] => [[c]]
      | l :: ls => (c :: l) :: ls

/-- Python `'\n'.join(lines)`: interleaves newline characters between lines. -/
def joinLines : List (List Char) → List Char
  | [] => []
  | [l] => l
  | l :: ls => l ++ '\n' :: joinLines ls

/-- The three-character sequence of a triple-backtick fence marker. -/
def fenceMarker : List Char := "```".toList

/-! ### `src/model.py` — `get_response`

The body of the retry loop (lines 34-41) first performs the model call,
then strips a surrounding code fence, then parses.  The fence check in the
source is `response.startswith("\x60\x60\x60") and response.endswith("\x60\x60\x60")`
on the whole text, and the strip is `'\n'.join(response.split('\n')[1:-1])`. -/

/-- Embeds `src/model.py` line 39: the condition under which `get_response`
strips the first and last lines — the response text starts with a
triple-backtick marker and ends with a triple-backtick marker. -/
def code_fenced (r : List Char) : Bool :=
  fenceMarker.isPrefixOf r && List.isSuffixOf fenceMarker r

/-- Embeds `src/model.py` line 40, `'\n'.join(response.split('\n')[1:-1])`:
remove the first and the last line of the text. -/
def stripFenceLines (r : List Char) : List Char :=
  joinLines (((splitLines r).drop 1).dropLast)

/-- The preprocessing `get_response` applies to the raw model response text
before handing it to the JSON parser (`src/model.py` lines 39-41). -/
def preprocess (r : List Char) : List Char :=
  if code_fenced r then stripFenceLines r else r

/-- The condition stated by the specification for unwrapping: the first
line and the last line of the response are literal triple-backtick
markers.  Kept separate from `code_fenced` (which embeds the source) so
the two can be compared. -/
def spec_fenced (r : List Char) : Bool :=
  ((splitLines r).headD [] == fenceMarker)
    && ((splitLines r).getLastD [] == fenceMarker)

/-- Result of one run of `get_response`:  how many attempts the loop made,
how many times it slept between attempts, and the final outcome.
`result = .ok none` models the Python function falling through a
zero-iteration loop and returning `None` (only possible when
`retries = 0`); `.ok (some v)` is a successful parsed value; `.error e`
is the exception propagated out of the final attempt. -/
structure RetryOutcome (V : Type) where
  attempts : Nat
  sleeps : Nat
  result : Except String (Option V)
  deriving Repr

/-- The retry loop of `get_response` (`src/model.py` lines 33-47),
starting at attempt index `i` with `remaining` loop iterations left.
`oracle j` is the combined outcome of the `j`-th (0-indexed) iteration
body up to and including the JSON parse: `.ok v` if the model call,
fence strip and parse produced `v`, `.error e` if any of them raised.
On a failed non-final iteration the loop sleeps once and continues;
on a failed final iteration it re-raises. -/
def getResponseFrom {V : Type} (oracle : Nat → Except String V) :
    Nat → Nat → RetryOutcome V
  | _, 0 => ⟨0, 0, .ok none⟩
  | i, remaining + 1 =>
    match oracle i with
    | .ok v => ⟨1, 0, .ok (some v)⟩
    | .error e =>
      match remaining with
      | 0 => ⟨1, 0, .error e⟩
      | r + 1 =>
        let rest := getResponseFrom oracle (i + 1) (r + 1)
        ⟨rest.attempts + 1, rest.sleeps + 1, rest.result⟩

/-- Embeds `src/model.py` `get_response(prompt, retries, delay)`: run the retry
loop from attempt 0 with `retries` iterations available. -/
def get_response {V : Type} (oracle : Nat → Except String V) (retries : Nat) :
    RetryOutcome V :=
  getResponseFrom oracle 0 retries

/-! ### `src/token_utils.py` — `get_file_tokens`

`tokenOf f` models `len(tokenizer.encode(read_codefile(f)))` for candidate
file `f`; `.error e` models the file read or the tokenizer raising.  The
source has no exception handler, so an oracle failure aborts the whole
selection.  The Python dict is modelled as an association list in
insertion order (`dict` preserves it, and `process_repo` iterates
`file_tokens.keys()` in that order). -/

/-- Embeds `src/token_utils.py` lines 21-33: iterate the candidate files in
traversal order; skip a file with zero tokens; skip a file over the
limit when a limit is given; otherwise record `(file, count)`.  An
exception from the tokenizer oracle propagates immediately. -/
def get_file_tokens (tokenOf : String → Except String Nat)
    (token_limit : Option Nat) :
    List String → Except String (List (String × Nat))
  | [] => .ok []
  | f :: rest =>
    match tokenOf f with
    | .error e => .error e
    | .ok n =>
      if n = 0 then get_file_tokens tokenOf token_limit rest
      else
        match token_limit with
        | some limit =>
          if limit < n then get_file_tokens tokenOf token_limit rest
          else
            match get_file_tokens tokenOf token_limit rest with
            | .error e => .error e
            | .ok tl => .ok ((f, n) :: tl)
        | none =>
          match get_file_tokens tokenOf token_limit rest with
          | .error e => .error e
          | .ok tl => .ok ((f, n) :: tl)

/-! ### `src/processing.py` — per-file task pipeline

Model-call outcomes and pydantic validations are oracles in a `TaskEnv`.
Raw parsed JSON values and validated records are abstracted as `String`
tokens (their identity is all the control flow inspects).  Each step emits
a trace of observable events: extraction calls issued, log lines printed
by the `except` handlers, artifacts written. -/

/-- Observable events of one per-file task, in program order. -/
inductive Event where
  | funcCallIssued
  | fileCallIssued
  | log (msg : String)
  | wroteFunctionArtifact (records : List String)
  | wroteFileArtifact (content : String)
  deriving Repr, DecidableEq

/-- Oracles describing the external effects of one per-file task of the
orchestrator.  `funcResp` / `fileResp` are the overall outcomes of the
`get_response` calls (after internal retries; `.error` = the exhausted
exception re-raised).  `validateFunc` / `validateFile` model pydantic
construction of `ExtendedFunctionDescription` / `ExtendedFileDescription`.
`mkdirs` models `os.makedirs` in `process_file`; `writeFunc` / `writeFile`
model the artifact `open(..., "w")` + `json.dump` I/O. -/
structure TaskEnv where
  funcResp : Except String (List String)
  validateFunc : String → Except String String
  fileResp : Except String String
  validateFile : String → Except String String
  mkdirs : Except String Unit
  writeFunc : Except String Unit
  writeFile : Except String Unit

/-- The `for r in function_result` loop of `process_function_description`
(`src/processing.py` lines 22-36): validate each element; a validation
failure is logged and the element dropped; survivors are kept in order. -/
def validateFunctionResults (validate : String → Except String String) :
    List String → List String × List Event
  | [] => ([], [])
  | r :: rest =>
    match validate r with
    | .ok v =>
      let (vs, logs) := validateFunctionResults validate rest
      (v :: vs, logs)
    | .error e =>
      let (vs, logs) := validateFunctionResults validate rest
      (vs, .log ("Error validating function description: " ++ e) :: logs)

/-- Embeds `src/processing.py` `process_function_description` (lines 14-43).
The whole body sits in one `try`, so every failure — the model call, the
artifact write — is caught and logged; per-element validation failures are
handled by the inner `try` and only drop that element.  Returns the event
trace; the function itself never raises to its caller. -/
def process_function_description (env : TaskEnv) : List Event :=
  match env.funcResp with
  | .error e =>
    [.funcCallIssued, .log ("Error processing function description: " ++ e)]
  | .ok rs =>
    let vr := validateFunctionResults env.validateFunc rs
    match env.writeFunc with
    | .ok _ =>
      .funcCallIssued :: vr.2 ++ [.wroteFunctionArtifact vr.1]
    | .error e =>
      .funcCallIssued :: vr.2
        ++ [.log ("Error processing function description: " ++ e)]

/-- Embeds `src/processing.py` `process_file_description` (lines 45-71).
`prior` is the content of the `.file.json` artifact before the call
(`none` = absent).  On a validation failure the inner `except` only logs,
execution falls through to `with open(..., "w")` — which truncates the
artifact — and `json.dump(validated_result_dict, ...)` then raises
`NameError` (the variable was never bound), caught by the outer handler:
the artifact is left empty.  Returns (trace, final artifact content);
never raises to its caller. -/
def process_file_description (env : TaskEnv) (prior : Option String) :
    List Event × Option String :=
  match env.fileResp with
  | .error e =>
    ([.fileCallIssued, .log ("Error processing file description: " ++ e)],
     prior)
  | .ok d =>
    match env.validateFile d with
    | .ok v =>
      match env.writeFile with
      | .ok _ => ([.fileCallIssued, .wroteFileArtifact v], some v)
      | .error e =>
        ([.fileCallIssued,
          .log ("Error processing file description: " ++ e)], some "")
    | .error e =>
      ([.fileCallIssued,
        .log ("Error validating file description: " ++ e),
        .log ("Error processing file description: name " ++
          "validated_result_dict is not defined")], some "")

/-- Embeds `src/processing.py` `process_file` (lines 73-86), the per-task body
inside `async with semaphore`.  `os.makedirs` (line 84) is not inside any
`try`: if it raises, the exception propagates out of the task (the
`.error` component).  Otherwise the function-level step runs to completion
before the file-level step starts.  Returns ((trace, final `.file.json`
content), propagated exception). -/
def process_file (env : TaskEnv) (prior : Option String) :
    (List Event × Option String) × Except String Unit :=
  match env.mkdirs with
  | .error e => (([], prior), .error e)
  | .ok _ =>
    let t1 := process_function_description env
    let p := process_file_description env prior
    ((t1 ++ p.1, p.2), .ok ())

/-- Models `asyncio.gather(*tasks)` with the default `return_exceptions=False`:
the overall await re-raises an exception raised by any task (modelled as
the first failing task in dispatch order); it completes normally only when
every task does. -/
def gatherResults : List (Except String Unit) → Except String Unit
  | [] => .ok ()
  | .error e :: _ => .error e
  | .ok _ :: rest => gatherResults rest

/-- Embeds `src/processing.py` `process_repo` (lines 88-122), restricted to its
orchestration core: one `process_file` task per work item (given as its
`TaskEnv` and prior `.file.json` artifact content), all dispatched, then
`await asyncio.gather(*tasks)`.  Returns the per-task observations and
the outcome of the overall await. -/
def process_repo (items : List (TaskEnv × Option String)) :
    List (List Event × Option String) × Except String Unit :=
  let rs := items.map fun p => process_file p.1 p.2
  (rs.map Prod.fst, gatherResults (rs.map Prod.snd))

/-! ### `src/processing.py` — `read_output` -/

/-- Embeds `src/models.py` `AnalysisResults`: the aggregate corpus, with
validated records abstracted as `String` tokens. -/
structure AnalysisResults where
  file_descriptions : List String
  function_descriptions : List String
  deriving Repr, DecidableEq

/-- Python `str.endswith(sfx)` on file names, executable on the
underlying character lists. -/
def strEndsWith (s sfx : String) : Bool :=
  List.isSuffixOf sfx.toList s.toList

/-- One file found by the `os.walk` over the output directory: its base
name (what the suffix dispatch inspects) and the outcome of
`json.load` on its content. -/
structure OutputFile where
  name : String
  parsed : Except String String

/-- Embeds `src/processing.py` `read_output` (lines 124-144): walk the files in
order; `json.load` each; dispatch on the `.file.json` /
`.function.json` suffix; a JSON decode error or a validation error is
logged and the file skipped.  `validateFileRec` models
`ExtendedFileDescription.model_validate(data)`; `validateFuncList` models
the list comprehension validating every element (it raises — and the
whole file is skipped — if any element fails or `data` is not a list). -/
def read_output (validateFileRec : String → Except String String)
    (validateFuncList : String → Except String (List String)) :
    List OutputFile → AnalysisResults × List Event
  | [] => (⟨[], []⟩, [])
  | f :: rest =>
    let acc := (read_output validateFileRec validateFuncList rest).1
    let tr := (read_output validateFileRec validateFuncList rest).2
    match f.parsed with
    | .error e =>
      (acc, .log ("Error decoding JSON from file " ++ f.name ++ ": " ++ e)
        :: tr)
    | .ok d =>
      if strEndsWith f.name ".file.json" then
        match validateFileRec d with
        | .ok rec =>
          (⟨rec :: acc.file_descriptions, acc.function_descriptions⟩, tr)
        | .error e =>
          (acc, .log ("Error reading file " ++ f.name ++ ": " ++ e) :: tr)
      else if strEndsWith f.name ".function.json" then
        match validateFuncList d with
        | .ok recs =>
          (⟨acc.file_descriptions, recs ++ acc.function_descriptions⟩, tr)
        | .error e =>
          (acc, .log ("Error reading file " ++ f.name ++ ": " ++ e) :: tr)
      else (acc, tr)

/-! ### Admission control — `asyncio.Semaphore(concurrency)`

`process_file` wraps its whole body in `async with semaphore`, so each
task's lifecycle is: wait for a slot; acquire; perform the function-level
extraction; then the file-level extraction; release.  The scheduler is
modelled as a small-step relation over the counts of tasks in each phase;
`acquire` is enabled only while fewer than `N` tasks hold a slot. -/

/-- Counts of dispatched tasks in each phase of `process_file`'s body. -/
structure SemState where
  waiting : Nat
  inFunctionCall : Nat
  inFileCall : Nat
  finished : Nat
  deriving Repr, DecidableEq

/-- Number of tasks currently holding an admission slot: a slot is
acquired on entry to `async with semaphore` and released only on exit,
so it is held through both extraction calls. -/
def tasksHoldingSlot (s : SemState) : Nat :=
  s.inFunctionCall + s.inFileCall

/-- One scheduler step under `asyncio.Semaphore N`: a waiting task may
acquire only while fewer than `N` slots are held; a task in its
function-level call moves on to its file-level call keeping its slot; a
task in its file-level call finishes and releases. -/
inductive SemStep (N : Nat) : SemState → SemState → Prop where
  | acquire (w f g d : Nat) (hN : f + g < N) :
      SemStep N ⟨w + 1, f, g, d⟩ ⟨w, f + 1, g, d⟩
  | advance (w f g d : Nat) :
      SemStep N ⟨w, f + 1, g, d⟩ ⟨w, f, g + 1, d⟩
  | release (w f g d : Nat) :
      SemStep N ⟨w, f, g + 1, d⟩ ⟨w, f, g, d + 1⟩

/-- States reachable by the scheduler from `n` freshly dispatched tasks. -/
inductive SemReachable (N n : Nat) : SemState → Prop where
  | init : SemReachable N n ⟨n, 0, 0, 0⟩
  | step {s s' : SemState} :
      SemReachable N n s → SemStep N s s' → SemReachable N n s'

/-! ## Helper lemmas -/

theorem splitLines_ne_nil (r : List Char) : splitLines r ≠ [] := by
  cases r with
  | nil => simp [splitLines]
  | cons c cs =>
    simp only [splitLines]
    by_cases h : c = '\n'
    · simp [h]
    · simp only [h, if_false]
      cases hs : splitLines cs <;> simp

theorem splitLines_eq_singleton {r l : List Char}
    (h : splitLines r = [l]) : l = r := by
  induction r generalizing l with
  | nil =>
    simp [splitLines] at h
    exact h
  | cons c cs ih =>
    by_cases hc : c = '\n'
    · simp [splitLines, hc] at h
      exact absurd h.2 (splitLines_ne_nil cs)
    · simp only [splitLines, hc, if_false] at h
      cases hs : splitLines cs with
      | nil => exact absurd hs (splitLines_ne_nil cs)
      | cons l' ls =>
        rw [hs] at h
        obtain ⟨hl, hls⟩ := List.cons.injEq .. ▸ h
        subst hls
        have : l' = cs := ih hs
        subst this
        exact hl.symm

theorem splitLines_head_starts (r : List Char) :
    (splitLines r).headD [] <+: r := by
  induction r with
  | nil => simp [splitLines]
  | cons c cs ih =>
    by_cases hc : c = '\n'
    · simp [splitLines, hc]
    · simp only [splitLines, hc, if_false]
      cases hs : splitLines cs with
      | nil => simp
      | cons l ls =>
        rw [hs] at ih
        simp only [List.headD_cons] at ih ⊢
        exact List.cons_prefix_cons.mpr ⟨rfl, ih⟩

theorem getLastD_default_irrel {α : Type} (x : α) (xs : List α) (d d' : α) :
    (x :: xs).getLastD d = (x :: xs).getLastD d' := by
  rw [List.getLastD_cons, List.getLastD_cons]

theorem splitLines_getLast_suffix (r : List Char) :
    (splitLines r).getLastD [] <:+ r := by
  induction r with
  | nil => simp [splitLines]
  | cons c cs ih =>
    by_cases hc : c = '\n'
    · simp only [splitLines, hc, if_pos]
      cases hs : splitLines cs with
      | nil => exact absurd hs (splitLines_ne_nil cs)
      | cons l ls =>
        rw [hs] at ih
        rw [List.getLastD_cons]
        exact ih.trans (List.suffix_cons _ cs)
    · simp only [splitLines, hc, if_false]
      cases hs : splitLines cs with
      | nil => exact absurd hs (splitLines_ne_nil cs)
      | cons l ls =>
        cases ls with
        | nil =>
          have : l = cs := splitLines_eq_singleton hs
          subst this
          simp
        | cons l2 ls2 =>
          rw [hs] at ih
          rw [List.getLastD_cons, getLastD_default_irrel l2 ls2 (c :: l) l]
          rw [List.getLastD_cons] at ih
          exact ih.trans (List.suffix_cons _ cs)

theorem spec_fenced_implies_code_fenced {r : List Char}
    (h : spec_fenced r = true) : code_fenced r = true := by
  simp only [spec_fenced, Bool.and_eq_true, beq_iff_eq] at h
  obtain ⟨h1, h2⟩ := h
  have hp : fenceMarker <+: r := h1 ▸ splitLines_head_starts r
  have hs : fenceMarker <:+ r := h2 ▸ splitLines_getLast_suffix r
  simp only [code_fenced, Bool.and_eq_true]
  exact ⟨List.isPrefixOf_iff_prefix.mpr hp,
    List.isSuffixOf_iff_suffix.mpr hs⟩

theorem getResponseFrom_all_fail {V : Type} (oracle : Nat → Except String V) :
    ∀ r i, (∀ j, j < r + 1 → ∃ e, oracle (i + j) = .error e) →
    ∃ e, oracle (i + r) = .error e ∧
      getResponseFrom oracle i (r + 1) = ⟨r + 1, r, .error e⟩ := by
  intro r
  induction r with
  | zero =>
    intro i h
    obtain ⟨e, he⟩ := h 0 (by omega)
    have he' : oracle i = .error e := by simpa using he
    exact ⟨e, by simpa using he', by simp [getResponseFrom, he']⟩
  | succ r ih =>
    intro i h
    obtain ⟨e0, he0⟩ := h 0 (by omega)
    have he0' : oracle i = .error e0 := by simpa using he0
    obtain ⟨e, he, hrec⟩ := ih (i + 1) (fun j hj => by
      obtain ⟨e', he'⟩ := h (j + 1) (by omega)
      exact ⟨e', by rw [show i + 1 + j = i + (j + 1) by omega]; exact he'⟩)
    refine ⟨e, by rw [show i + (r + 1) = i + 1 + r by omega]; exact he, ?_⟩
    simp [getResponseFrom, he0', hrec]

theorem getResponseFrom_succeeds {V : Type} (oracle : Nat → Except String V) :
    ∀ k i r v, (∀ j, j < k → ∃ e, oracle (i + j) = .error e) →
      oracle (i + k) = .ok v → k < r →
      getResponseFrom oracle i r = ⟨k + 1, k, .ok (some v)⟩ := by
  intro k
  induction k with
  | zero =>
    intro i r v _ hok hr
    obtain ⟨r', rfl⟩ : ∃ r', r = r' + 1 := ⟨r - 1, by omega⟩
    have hok' : oracle i = .ok v := by simpa using hok
    simp [getResponseFrom, hok']
  | succ k ih =>
    intro i r v hfail hok hr
    obtain ⟨e0, he0⟩ := hfail 0 (by omega)
    have he0' : oracle i = .error e0 := by simpa using he0
    obtain ⟨r', rfl⟩ : ∃ r', r = r' + 1 := ⟨r - 1, by omega⟩
    obtain ⟨r'', rfl⟩ : ∃ r'', r' = r'' + 1 := ⟨r' - 1, by omega⟩
    have hrec := ih (i + 1) (r'' + 1) v
      (fun j hj => by
        obtain ⟨e', he'⟩ := hfail (j + 1) (by omega)
        exact ⟨e', by rw [show i + 1 + j = i + (j + 1) by omega]; exact he'⟩)
      (by rw [show i + 1 + k = i + (k + 1) by omega]; exact hok)
      (by omega)
    simp [getResponseFrom, he0', hrec]

/-! ## Claim theorems -/

/-- Claim C3: with `retries = R ≥ 1`, a request whose underlying call
fails on every attempt makes exactly `R` attempts, sleeps exactly `R - 1`
times, and propagates the last exception; a request that fails on the
first `k` attempts (`k < R`) and succeeds on attempt `k + 1` returns the
parsed result after exactly `k + 1` attempts and `k` sleeps. -/
theorem get_response_retry_policy {V : Type} (R : Nat)
    (oracle : Nat → Except String V) (hR : 1 ≤ R) :
    ((∀ i, i < R → ∃ e, oracle i = .error e) →
      ∃ e, oracle (R - 1) = .error e ∧
        get_response oracle R = ⟨R, R - 1, .error e⟩)
    ∧ (∀ k v, k < R → (∀ i, i < k → ∃ e, oracle i = .error e) →
        oracle k = .ok v →
        get_response oracle R = ⟨k + 1, k, .ok (some v)⟩) := by
  obtain ⟨r, rfl⟩ : ∃ r, R = r + 1 := ⟨R - 1, by omega⟩
  constructor
  · intro hall
    obtain ⟨e, he, hre⟩ := getResponseFrom_all_fail oracle r 0
      (fun j hj => by simpa using hall j (by omega))
    exact ⟨e, by simpa using he, by simpa [get_response] using hre⟩
  · intro k v hk hfail hok
    have := getResponseFrom_succeeds oracle k 0 (r + 1) v
      (fun j hj => by simpa using hfail j (by omega))
      (by simpa using hok) hk
    simpa [get_response] using this

/-- Witness for C3 at `R = 2`: an oracle failing on both attempts yields
2 attempts, 1 sleep and the propagated error; an oracle failing on the
first attempt and succeeding on the second yields the parsed value after
2 attempts and 1 sleep. -/
theorem get_response_retry_policy_witness :
    get_response (fun _ => (.error "boom" : Except String Nat)) 2
      = ⟨2, 1, .error "boom"⟩
    ∧ get_response
        (fun i => if i = 0 then (.error "boom" : Except String Nat)
          else .ok 7) 2
      = ⟨2, 1, .ok (some 7)⟩ := by
  constructor
  · obtain ⟨e, he, hre⟩ :=
      (get_response_retry_policy 2
        (fun _ => (.error "boom" : Except String Nat)) (by omega)).1
        (fun i _ => ⟨"boom", rfl⟩)
    obtain rfl : e = "boom" := by
      simpa [Except.error.injEq] using he.symm
    exact hre
  · exact (get_response_retry_policy 2
      (fun i => if i = 0 then (.error "boom" : Except String Nat)
        else .ok 7) (by omega)).2 1 7 (by omega)
      (fun i hi => ⟨"boom", by interval_cases i; rfl⟩) rfl

/-- Claim C7 counterexample: the response `"(backtick fence)json\n1\n(backtick fence)"`
does not have literal triple-backtick markers as its first line (the first
line is the marker followed by a `json` tag), yet `get_response` does
remove its first and last lines before parsing — refuting the claimed
"if and only if". -/
theorem fence_strip_iff_counterexample :
    spec_fenced ("```json\n1\n```".toList) = false
    ∧ preprocess ("```json\n1\n```".toList) = "1".toList := by
  constructor <;> decide

/-- Claim C7 (amended): the first and last lines are removed exactly when
the response text starts with a triple-backtick marker and ends with one
(so in particular every response whose first and last lines are literal
triple-backtick markers is unwrapped); a response not fenced in that sense
— e.g. unfenced valid JSON — is handed to the parser unchanged. -/
theorem fence_strip_amended (r : List Char) :
    (code_fenced r = true → preprocess r = stripFenceLines r)
    ∧ (code_fenced r = false → preprocess r = r)
    ∧ (spec_fenced r = true → preprocess r = stripFenceLines r) := by
  refine ⟨fun h => by simp [preprocess, h], fun h => by simp [preprocess, h],
    fun h => by simp [preprocess, spec_fenced_implies_code_fenced h]⟩

/-- Witness for C7 (amended): a tagged fence is stripped, unfenced JSON is
unchanged, and a literal marker-line fence is stripped. -/
theorem fence_strip_amended_witness :
    preprocess ("```json\n1\n```".toList)
      = stripFenceLines ("```json\n1\n```".toList)
    ∧ preprocess ("[1, 2]".toList) = "[1, 2]".toList
    ∧ preprocess ("```\n[1, 2]\n```".toList)
      = stripFenceLines ("```\n[1, 2]\n```".toList) := by
  exact ⟨(fence_strip_amended _).1 (by decide),
    (fence_strip_amended _).2.1 (by decide),
    (fence_strip_amended _).2.2 (by decide)⟩

/-- Claim C5: with a supplied token limit `L`, the selection keeps exactly
the candidate files whose token count `c` satisfies `0 < c ≤ L` (zero
count or count above the limit is excluded), each paired with its count,
in the candidates' traversal order. -/
theorem token_budget_filter_spec (tok : String → Nat) (L : Nat)
    (files : List String) :
    get_file_tokens (fun f => .ok (tok f)) (some L) files
      = .ok ((files.filter fun f =>
          decide (0 < tok f) && decide (tok f ≤ L)).map
            fun f => (f, tok f)) := by
  induction files with
  | nil => rfl
  | cons f rest ih =>
    simp only [get_file_tokens, List.filter_cons]
    by_cases h0 : tok f = 0
    · simp [h0, ih]
    · by_cases hL : L < tok f
      · have h1 : ¬ tok f ≤ L := by omega
        simp [h0, hL, h1, ih]
      · have h1 : tok f ≤ L := by omega
        have h2 : 0 < tok f := by omega
        simp [h0, hL, h1, h2, ih]

/-- Claim C6 counterexample: the tokenizer oracle raises on the first
candidate and works on the second, yet the whole selection aborts with
the propagated exception — no WorkItem list for the remaining candidate
is returned. -/
theorem token_failure_counterexample :
    get_file_tokens
      (fun f => if f = "a.py" then .error "tokenizer failed"
        else .ok 5)
      (some 100) ["a.py", "b.py"]
      = .error "tokenizer failed" := by rfl

/-- Claim C6 (amended): a tokenizer (or file-read) failure on one
candidate file is fatal for the entire selection: the exception
propagates out of `get_file_tokens`, so no WorkItem list is returned and
the remaining candidates are not processed. -/
theorem token_failure_aborts_selection (tok : String → Except String Nat)
    (limit : Option Nat) (pre post : List String) (f e : String)
    (hpre : ∀ g ∈ pre, ∃ n, tok g = .ok n) (hf : tok f = .error e) :
    get_file_tokens tok limit (pre ++ f :: post) = .error e := by
  induction pre with
  | nil => simp [get_file_tokens, hf]
  | cons g rest ih =>
    obtain ⟨n, hn⟩ := hpre g (by simp)
    have ih' := ih (fun g' hg' => hpre g' (by simp [hg']))
    simp only [List.cons_append, get_file_tokens, hn]
    by_cases h0 : n = 0
    · simpa [h0] using ih'
    · cases limit with
      | none => simp [h0, ih']
      | some L =>
        by_cases hL : L < n
        · simp [h0, hL, ih']
        · simp [h0, hL, ih']

/-- Witness for C6 (amended): concrete two-candidate selection where the
second candidate's tokenizer call raises. -/
theorem token_failure_aborts_selection_witness :
    get_file_tokens
      (fun f => if f = "bad.py" then .error "tokenizer failed"
        else .ok 5)
      (some 100) ["ok.py", "bad.py", "later.py"]
      = .error "tokenizer failed" := by
  exact token_failure_aborts_selection _ (some 100) ["ok.py"] ["later.py"]
    "bad.py" "tokenizer failed"
    (fun g hg => ⟨5, by fin_cases hg; rfl⟩) rfl

/-! ## Per-task pipeline lemmas -/

theorem validateFunctionResults_fst (v : String → Except String String)
    (rs : List String) :
    (validateFunctionResults v rs).1
      = rs.filterMap fun r => (v r).toOption := by
  induction rs with
  | nil => rfl
  | cons r rest ih =>
    simp only [validateFunctionResults, List.filterMap_cons]
    cases hv : v r <;> simp [hv, Except.toOption, ih]

theorem validateFunctionResults_snd_logs (v : String → Except String String)
    (rs : List String) :
    ∀ ev ∈ (validateFunctionResults v rs).2, ∃ m, ev = Event.log m := by
  induction rs with
  | nil => simp [validateFunctionResults]
  | cons r rest ih =>
    intro ev hev
    simp only [validateFunctionResults] at hev
    cases hv : v r with
    | ok val =>
      rw [hv] at hev
      exact ih ev hev
    | error e =>
      rw [hv] at hev
      simp only [List.mem_cons] at hev
      rcases hev with h | h
      · exact ⟨_, h⟩
      · exact ih ev h

theorem validateFunctionResults_mem_log (v : String → Except String String)
    (rs : List String) :
    ∀ r ∈ rs, ∀ e, v r = .error e →
      Event.log ("Error validating function description: " ++ e)
        ∈ (validateFunctionResults v rs).2 := by
  induction rs with
  | nil => simp
  | cons r0 rest ih =>
    intro r hr e he
    simp only [List.mem_cons] at hr
    simp only [validateFunctionResults]
    rcases hr with rfl | hr
    · rw [he]
      simp
    · cases hv : v r0 with
      | ok val => simpa [hv] using ih r hr e he
      | error e0 => simp [hv, ih r hr e he]

theorem process_function_description_no_fileCall (env : TaskEnv) :
    Event.fileCallIssued ∉ process_function_description env := by
  intro hmem
  cases hresp : env.funcResp with
  | error e => simp [process_function_description, hresp] at hmem
  | ok rs =>
    have hnolog :
        Event.fileCallIssued ∉ (validateFunctionResults env.validateFunc rs).2 := by
      intro h
      obtain ⟨m, hm⟩ :=
        validateFunctionResults_snd_logs env.validateFunc rs _ h
      simp at hm
    cases hw : env.writeFunc with
    | ok u => simp [process_function_description, hresp, hw, hnolog] at hmem
    | error e => simp [process_function_description, hresp, hw, hnolog] at hmem

theorem process_file_description_starts_fileCall (env : TaskEnv)
    (prior : Option String) :
    ∃ t, (process_file_description env prior).1
      = Event.fileCallIssued :: t := by
  cases hresp : env.fileResp with
  | error e =>
    exact ⟨[Event.log ("Error processing file description: " ++ e)],
      by simp [process_file_description, hresp]⟩
  | ok d =>
    cases hval : env.validateFile d with
    | error e =>
      exact ⟨[Event.log ("Error validating file description: " ++ e),
        Event.log ("Error processing file description: name " ++
          "validated_result_dict is not defined")],
        by simp [process_file_description, hresp, hval]⟩
    | ok v =>
      cases hw : env.writeFile with
      | ok u =>
        exact ⟨[Event.wroteFileArtifact v],
          by simp [process_file_description, hresp, hval, hw]⟩
      | error e =>
        exact ⟨[Event.log ("Error processing file description: " ++ e)],
          by simp [process_file_description, hresp, hval, hw]⟩

theorem process_file_trace_split (env : TaskEnv) (prior : Option String)
    (hmk : env.mkdirs = .ok ()) :
    ((process_file env prior).1).1
      = process_function_description env
        ++ (process_file_description env prior).1
    ∧ ((process_file env prior).1).2
      = (process_file_description env prior).2
    ∧ (process_file env prior).2 = .ok () := by
  simp [process_file, hmk]

theorem gatherResults_all_ok (l : List (Except String Unit))
    (h : ∀ r ∈ l, r = .ok ()) : gatherResults l = .ok () := by
  induction l with
  | nil => rfl
  | cons r rest ih =>
    have hr := h r (by simp)
    subst hr
    exact ih fun r' hr' => h r' (by simp [hr'])

/-! ## Claim theorems for the per-task pipeline -/

/-- Claim C1 counterexample: a task whose function-level extraction fails
after retry exhaustion still issues the file-level extraction call — the
exception is caught inside `process_function_description`, so
`process_file` proceeds to `process_file_description`. -/
theorem function_failure_skips_file_call_counterexample :
    Event.fileCallIssued ∈
      ((process_file
        { funcResp := .error "ExtractionError: retries exhausted"
          validateFunc := fun r => .ok r
          fileResp := .ok "filedesc"
          validateFile := fun r => .ok r
          mkdirs := .ok ()
          writeFunc := .ok ()
          writeFile := .ok () } none).1).1 := by decide

/-- Claim C1 (amended): within one per-file task the file-level extraction
call begins only after the function-level step has fully completed (no
file-level call occurs during the function-level step, whose successful
path writes the artifact); but a function-level extraction failure is
caught inside the function-level step, so the file-level extraction call
is still issued, not skipped. -/
theorem file_call_after_function_step (env : TaskEnv) (prior : Option String)
    (hmk : env.mkdirs = .ok ()) :
    ((process_file env prior).1).1
      = process_function_description env
        ++ (process_file_description env prior).1
    ∧ Event.fileCallIssued ∉ process_function_description env
    ∧ (∀ e, env.funcResp = .error e →
        Event.fileCallIssued ∈ ((process_file env prior).1).1) := by
  refine ⟨(process_file_trace_split env prior hmk).1,
    process_function_description_no_fileCall env, fun e he => ?_⟩
  rw [(process_file_trace_split env prior hmk).1]
  obtain ⟨t, ht⟩ := process_file_description_starts_fileCall env prior
  rw [ht]
  simp

/-- Witness for C1 (amended): concrete task whose function-level
extraction fails; the trace decomposes sequentially and still contains
the file-level call. -/
theorem file_call_after_function_step_witness :
    Event.fileCallIssued ∈
      ((process_file
        { funcResp := .error "boom"
          validateFunc := fun r => .ok r
          fileResp := .ok "fd"
          validateFile := fun r => .ok r
          mkdirs := .ok ()
          writeFunc := .ok ()
          writeFile := .ok () } none).1).1 :=
  (file_call_after_function_step
    { funcResp := .error "boom"
      validateFunc := fun r => .ok r
      fileResp := .ok "fd"
      validateFile := fun r => .ok r
      mkdirs := .ok ()
      writeFunc := .ok ()
      writeFile := .ok () } none rfl).2.2 "boom" rfl

/-- Claim C2 counterexample: an exception from output-directory creation
(`os.makedirs`) is not caught at the task boundary: it propagates out of
the task, and the orchestrator's `asyncio.gather` re-raises it, so the
run does not complete normally. -/
theorem makedirs_failure_propagates_counterexample :
    (process_file
      { funcResp := .ok []
        validateFunc := fun r => .ok r
        fileResp := .ok "fd"
        validateFile := fun r => .ok r
        mkdirs := .error "PermissionError"
        writeFunc := .ok ()
        writeFile := .ok () } none).2 = .error "PermissionError"
    ∧ (process_repo
      [({ funcResp := .ok []
          validateFunc := fun r => .ok r
          fileResp := .ok "fd"
          validateFile := fun r => .ok r
          mkdirs := .error "PermissionError"
          writeFunc := .ok ()
          writeFile := .ok () }, none)]).2 = .error "PermissionError" := by
  exact ⟨rfl, rfl⟩

/-- Claim C2 (amended): extraction, validation and artifact-write
exceptions are all caught and logged inside the per-step handlers and
never propagate — when every item's output-directory creation succeeds,
every task returns normally, the orchestrator's gather completes, and one
observation is produced per work item; but an output-directory-creation
exception is not caught at the task boundary (see the counterexample). -/
theorem per_task_error_containment (items : List (TaskEnv × Option String))
    (h : ∀ p ∈ items, p.1.mkdirs = .ok ()) :
    (∀ p ∈ items, (process_file p.1 p.2).2 = .ok ())
    ∧ (process_repo items).2 = .ok ()
    ∧ ((process_repo items).1).length = items.length := by
  have hok : ∀ p ∈ items, (process_file p.1 p.2).2 = .ok () :=
    fun p hp => (process_file_trace_split p.1 p.2 (h p hp)).2.2
  refine ⟨hok, ?_, by simp [process_repo]⟩
  simp only [process_repo, List.map_map]
  exact gatherResults_all_ok _ fun r hr => by
    simp only [List.mem_map, Function.comp] at hr
    obtain ⟨p, hp, rfl⟩ := hr
    exact hok p hp

/-- Witness for C2 (amended): two concrete work items whose extractions,
validations and artifact writes all fail, but whose directory creation
succeeds; the orchestrator run completes and both items are attempted. -/
theorem per_task_error_containment_witness :
    (process_repo
      [({ funcResp := .error "ExtractionError"
          validateFunc := fun _ => .error "ValidationFailure"
          fileResp := .error "ExtractionError"
          validateFile := fun _ => .error "ValidationFailure"
          mkdirs := .ok ()
          writeFunc := .error "IOFailure"
          writeFile := .error "IOFailure" }, none),
       ({ funcResp := .ok ["r1"]
          validateFunc := fun r => .ok r
          fileResp := .ok "fd"
          validateFile := fun r => .ok r
          mkdirs := .ok ()
          writeFunc := .ok ()
          writeFile := .ok () }, some "old")]).2 = .ok ()
    ∧ ((process_repo
      [({ funcResp := .error "ExtractionError"
          validateFunc := fun _ => .error "ValidationFailure"
          fileResp := .error "ExtractionError"
          validateFile := fun _ => .error "ValidationFailure"
          mkdirs := .ok ()
          writeFunc := .error "IOFailure"
          writeFile := .error "IOFailure" }, none),
       ({ funcResp := .ok ["r1"]
          validateFunc := fun r => .ok r
          fileResp := .ok "fd"
          validateFile := fun r => .ok r
          mkdirs := .ok ()
          writeFunc := .ok ()
          writeFile := .ok () }, some "old")]).1).length = 2 := by
  have h := per_task_error_containment
    [({ funcResp := .error "ExtractionError"
        validateFunc := fun _ => .error "ValidationFailure"
        fileResp := .error "ExtractionError"
        validateFile := fun _ => .error "ValidationFailure"
        mkdirs := .ok ()
        writeFunc := .error "IOFailure"
        writeFile := .error "IOFailure" }, none),
     ({ funcResp := .ok ["r1"]
        validateFunc := fun r => .ok r
        fileResp := .ok "fd"
        validateFile := fun r => .ok r
        mkdirs := .ok ()
        writeFunc := .ok ()
        writeFile := .ok () }, some "old")]
    (by intro p hp; fin_cases hp <;> rfl)
  exact ⟨h.2.1, h.2.2⟩

/-! ## Artifact persistence and aggregation -/

theorem except_error_bind {α β : Type} (e : String)
    (g : α → Except String β) :
    (Except.error e : Except String α).bind g = .error e := rfl

theorem except_ok_bind {α β : Type} (a : α) (g : α → Except String β) :
    (Except.ok a : Except String α).bind g = g a := rfl

theorem except_toOption_ok {α : Type} (a : α) :
    (Except.ok a : Except String α).toOption = some a := rfl

theorem except_toOption_error {α : Type} (e : String) :
    (Except.error e : Except String α).toOption = (none : Option α) := rfl

/-- Claim C8: when the function-level extraction returns an array and the
artifact write succeeds, the task trace is: the function-level call, then
one log per dropped (validation-failed) element, then the
`.function.json` artifact write holding exactly the validated elements in
response order (possibly the empty list), and only then the file-level
step — which begins with the file-level extraction call. -/
theorem function_records_validated_and_persisted (env : TaskEnv)
    (prior : Option String) (rs : List String)
    (hresp : env.funcResp = .ok rs) (hw : env.writeFunc = .ok ())
    (hmk : env.mkdirs = .ok ()) :
    ∃ logs fileTrace,
      ((process_file env prior).1).1
        = Event.funcCallIssued :: logs
          ++ Event.wroteFunctionArtifact
              (rs.filterMap fun r => (env.validateFunc r).toOption)
            :: fileTrace
      ∧ (∀ ev ∈ logs, ∃ m, ev = Event.log m)
      ∧ (∀ r ∈ rs, ∀ e, env.validateFunc r = .error e →
          Event.log ("Error validating function description: " ++ e) ∈ logs)
      ∧ ∃ t, fileTrace = Event.fileCallIssued :: t := by
  refine ⟨(validateFunctionResults env.validateFunc rs).2,
    (process_file_description env prior).1, ?_,
    validateFunctionResults_snd_logs _ _,
    validateFunctionResults_mem_log _ _,
    process_file_description_starts_fileCall env prior⟩
  rw [(process_file_trace_split env prior hmk).1]
  simp [process_function_description, hresp, hw,
    validateFunctionResults_fst]

/-- Concrete environment for the C8 witness: three response elements of
which the middle one fails validation (missing `return_type`). -/
def sampleFunctionEnv : TaskEnv where
  funcResp := .ok ["good1", "bad", "good2"]
  validateFunc := fun r =>
    if r = "bad" then .error "missing return_type" else .ok r
  fileResp := .ok "fd"
  validateFile := fun r => .ok r
  mkdirs := .ok ()
  writeFunc := .ok ()
  writeFile := .ok ()

/-- Witness for C8: on `sampleFunctionEnv` the artifact holds exactly the
two valid records in order, the dropped element is logged, and the
file-level call comes after the write. -/
theorem function_records_validated_and_persisted_witness :
    ∃ logs fileTrace,
      ((process_file sampleFunctionEnv none).1).1
        = Event.funcCallIssued :: logs
          ++ Event.wroteFunctionArtifact
              (["good1", "bad", "good2"].filterMap
                fun r => (sampleFunctionEnv.validateFunc r).toOption)
            :: fileTrace
      ∧ (∀ ev ∈ logs, ∃ m, ev = Event.log m)
      ∧ (∀ r ∈ ["good1", "bad", "good2"], ∀ e,
          sampleFunctionEnv.validateFunc r = .error e →
          Event.log ("Error validating function description: " ++ e) ∈ logs)
      ∧ ∃ t, fileTrace = Event.fileCallIssued :: t :=
  function_records_validated_and_persisted sampleFunctionEnv none
    ["good1", "bad", "good2"] rfl rfl rfl

theorem read_output_trace_mono (vF : String → Except String String)
    (vFn : String → Except String (List String)) (f : OutputFile)
    (files : List OutputFile) (x : Event)
    (hx : x ∈ (read_output vF vFn files).2) :
    x ∈ (read_output vF vFn (f :: files)).2 := by
  cases hp : f.parsed with
  | error e =>
    simp only [read_output, hp]
    exact List.mem_cons_of_mem _ hx
  | ok d =>
    simp only [read_output, hp]
    by_cases h1 : strEndsWith f.name ".file.json"
    · cases hv : vF d with
      | ok rec => simpa [h1, hv] using hx
      | error e => simpa [h1, hv] using List.mem_cons_of_mem _ hx
    · by_cases h2 : strEndsWith f.name ".function.json"
      · cases hv : vFn d with
        | ok recs => simpa [h1, h2, hv] using hx
        | error e => simpa [h1, h2, hv] using List.mem_cons_of_mem _ hx
      · simpa [h1, h2] using hx

theorem read_output_corpus_eq (vF : String → Except String String)
    (vFn : String → Except String (List String))
    (files : List OutputFile) :
    (read_output vF vFn files).1
      = ⟨files.filterMap (fun f =>
            if strEndsWith f.name ".file.json" then (f.parsed.bind vF).toOption
            else none),
         (files.filterMap (fun f =>
            if strEndsWith f.name ".file.json" then none
            else if strEndsWith f.name ".function.json" then
              (f.parsed.bind vFn).toOption
            else none)).flatten⟩ := by
  induction files with
  | nil => rfl
  | cons f rest ih =>
    simp only [read_output, List.filterMap_cons]
    cases hp : f.parsed with
    | error e => simp [except_error_bind, except_toOption_error, ih]
    | ok d =>
      by_cases h1 : strEndsWith f.name ".file.json"
      · cases hv : vF d with
        | ok rec =>
          simp [h1, hv, except_ok_bind, except_toOption_ok, ih]
        | error e =>
          simp [h1, hv, except_ok_bind, except_toOption_error, ih]
      · by_cases h2 : strEndsWith f.name ".function.json"
        · cases hv : vFn d with
          | ok recs =>
            simp [h1, h2, hv, except_ok_bind, except_toOption_ok, ih]
          | error e =>
            simp [h1, h2, hv, except_ok_bind, except_toOption_error, ih]
        · simp [h1, h2, ih]

theorem read_output_log_decode (vF : String → Except String String)
    (vFn : String → Except String (List String)) :
    ∀ files : List OutputFile, ∀ f ∈ files, ∀ e, f.parsed = .error e →
      Event.log ("Error decoding JSON from file " ++ f.name ++ ": " ++ e)
        ∈ (read_output vF vFn files).2 := by
  intro files
  induction files with
  | nil => simp
  | cons f0 rest ih =>
    intro f hf e he
    rcases List.mem_cons.mp hf with rfl | hf'
    · simp [read_output, he]
    · exact read_output_trace_mono vF vFn f0 rest _ (ih f hf' e he)

theorem read_output_log_validate (vF : String → Except String String)
    (vFn : String → Except String (List String)) :
    ∀ files : List OutputFile, ∀ f ∈ files, ∀ d e, f.parsed = .ok d →
      (strEndsWith f.name ".file.json" = true ∧ vF d = .error e
        ∨ strEndsWith f.name ".file.json" = false
          ∧ strEndsWith f.name ".function.json" = true ∧ vFn d = .error e) →
      Event.log ("Error reading file " ++ f.name ++ ": " ++ e)
        ∈ (read_output vF vFn files).2 := by
  intro files
  induction files with
  | nil => simp
  | cons f0 rest ih =>
    intro f hf d e hd hcase
    rcases List.mem_cons.mp hf with rfl | hf'
    · rcases hcase with ⟨h1, hv⟩ | ⟨h1, h2, hv⟩
      · simp [read_output, hd, h1, hv]
      · simp [read_output, hd, h1, h2, hv]
    · exact read_output_trace_mono vF vFn f0 rest _
        (ih f hf' d e hd hcase)

/-- Claim C9: the aggregation read dispatches on the file-name suffix —
`.file.json` contributes one FileRecord, `.function.json` contributes a
list of FunctionRecords, all other files contribute nothing — and a file
whose JSON parse or whose schema validation fails is logged and skipped
without aborting the walk, so the returned corpus holds exactly the
records of the artifacts that parse and validate. -/
theorem read_output_aggregation (vF : String → Except String String)
    (vFn : String → Except String (List String))
    (files : List OutputFile) :
    (read_output vF vFn files).1
      = ⟨files.filterMap (fun f =>
            if strEndsWith f.name ".file.json" then (f.parsed.bind vF).toOption
            else none),
         (files.filterMap (fun f =>
            if strEndsWith f.name ".file.json" then none
            else if strEndsWith f.name ".function.json" then
              (f.parsed.bind vFn).toOption
            else none)).flatten⟩
    ∧ (∀ f ∈ files, ∀ e, f.parsed = .error e →
        Event.log ("Error decoding JSON from file " ++ f.name ++ ": " ++ e)
          ∈ (read_output vF vFn files).2)
    ∧ (∀ f ∈ files, ∀ d e, f.parsed = .ok d →
        (strEndsWith f.name ".file.json" = true ∧ vF d = .error e
          ∨ strEndsWith f.name ".file.json" = false
            ∧ strEndsWith f.name ".function.json" = true ∧ vFn d = .error e) →
        Event.log ("Error reading file " ++ f.name ++ ": " ++ e)
          ∈ (read_output vF vFn files).2) :=
  ⟨read_output_corpus_eq vF vFn files,
   read_output_log_decode vF vFn files,
   read_output_log_validate vF vFn files⟩

/-- Witness for C9: a concrete four-artifact tree — a valid `.file.json`,
a `.function.json` failing validation, a file failing JSON decode, and an
unrelated file — aggregates to exactly the valid record and logs the two
failures. -/
theorem read_output_aggregation_witness :
    (read_output (fun d => if d = "good" then .ok "FR" else .error "bad")
      (fun _ => .error "bad element")
      [⟨"a.file.json", .ok "good"⟩, ⟨"b.function.json", .ok "elems"⟩,
       ⟨"c.file.json", .error "decode error"⟩, ⟨"notes.txt", .ok "x"⟩]).1
      = ⟨["FR"], []⟩
    ∧ Event.log ("Error decoding JSON from file " ++ "c.file.json"
        ++ ": " ++ "decode error")
      ∈ (read_output (fun d => if d = "good" then .ok "FR" else .error "bad")
        (fun _ => .error "bad element")
        [⟨"a.file.json", .ok "good"⟩, ⟨"b.function.json", .ok "elems"⟩,
         ⟨"c.file.json", .error "decode error"⟩, ⟨"notes.txt", .ok "x"⟩]).2
    ∧ Event.log ("Error reading file " ++ "b.function.json"
        ++ ": " ++ "bad element")
      ∈ (read_output (fun d => if d = "good" then .ok "FR" else .error "bad")
        (fun _ => .error "bad element")
        [⟨"a.file.json", .ok "good"⟩, ⟨"b.function.json", .ok "elems"⟩,
         ⟨"c.file.json", .error "decode error"⟩, ⟨"notes.txt", .ok "x"⟩]).2 := by
  have h := read_output_aggregation
    (fun d => if d = "good" then .ok "FR" else .error "bad")
    (fun _ => .error "bad element")
    [⟨"a.file.json", .ok "good"⟩, ⟨"b.function.json", .ok "elems"⟩,
     ⟨"c.file.json", .error "decode error"⟩, ⟨"notes.txt", .ok "x"⟩]
  refine ⟨?_, ?_, ?_⟩
  · rw [h.1]; decide
  · exact h.2.1 ⟨"c.file.json", .error "decode error"⟩ (by simp) "decode error" rfl
  · exact h.2.2 ⟨"b.function.json", .ok "elems"⟩ (by simp) "elems" "bad element"
      rfl (Or.inr ⟨by rfl, by rfl, rfl⟩)

/-- Claim C10: when the file-level response parses but fails FileRecord
validation, `process_file_description` still opens the `.file.json`
artifact for writing and truncates it: the final artifact state is an
empty file — never absent, and equal to the prior state only if the prior
state was already the empty file. -/
theorem file_validation_failure_truncates (env : TaskEnv)
    (prior : Option String) (d e : String)
    (hresp : env.fileResp = .ok d) (hval : env.validateFile d = .error e) :
    (process_file_description env prior).2 = some ""
    ∧ (process_file_description env prior).2 ≠ none
    ∧ ((process_file_description env prior).2 = prior → prior = some "") := by
  have h : (process_file_description env prior).2 = some "" := by
    simp [process_file_description, hresp, hval]
  exact ⟨h, by simp [h], fun hp => by rw [← hp, h]⟩

/-- Witness for C10: a concrete task whose file-level response parses but
fails validation erases the previously written artifact content. -/
theorem file_validation_failure_truncates_witness :
    (process_file_description
      { funcResp := .ok []
        validateFunc := fun r => .ok r
        fileResp := .ok "fd"
        validateFile := fun _ => .error "missing overall_purpose_and_domain"
        mkdirs := .ok ()
        writeFunc := .ok ()
        writeFile := .ok () } (some "previous artifact")).2 = some ""
    ∧ ((process_file_description
      { funcResp := .ok []
        validateFunc := fun r => .ok r
        fileResp := .ok "fd"
        validateFile := fun _ => .error "missing overall_purpose_and_domain"
        mkdirs := .ok ()
        writeFunc := .ok ()
        writeFile := .ok () } (some "previous artifact")).2
        = some "previous artifact" → (some "previous artifact" : Option String) = some "") := by
  have h := file_validation_failure_truncates
    { funcResp := .ok []
      validateFunc := fun r => .ok r
      fileResp := .ok "fd"
      validateFile := fun _ => .error "missing overall_purpose_and_domain"
      mkdirs := .ok ()
      writeFunc := .ok ()
      writeFile := .ok () } (some "previous artifact") "fd"
    "missing overall_purpose_and_domain" rfl rfl
  exact ⟨h.1, h.2.2⟩

/-! ## Admission control -/

/-- Claim C4: in every scheduler state reachable from `n` dispatched
tasks under `asyncio.Semaphore N`, the number of tasks holding an
admission slot — each holding exactly one slot through both its
function-level and its file-level extraction call — never exceeds `N`,
so outstanding extraction calls of both kinds combined are bounded by
`N`, not `2 N`; and every one of the `n` tasks is always either waiting,
holding its single slot, or finished. -/
theorem admission_slots_bounded (N n : Nat) (s : SemState)
    (h : SemReachable N n s) :
    tasksHoldingSlot s ≤ N
    ∧ s.waiting + tasksHoldingSlot s + s.finished = n := by
  induction h with
  | init => simp [tasksHoldingSlot]
  | step _ hs ih =>
    cases hs with
    | acquire w f g d hN =>
      simp only [tasksHoldingSlot] at ih ⊢
      omega
    | advance w f g d =>
      simp only [tasksHoldingSlot] at ih ⊢
      omega
    | release w f g d =>
      simp only [tasksHoldingSlot] at ih ⊢
      omega

/-- Witness for C4: with `concurrencyLimit = 1` and five dispatched
tasks, after five scheduler steps (one task completed, a second admitted
and now in its file-level call) at most one slot is held and all five
tasks are accounted for. -/
theorem admission_slots_bounded_witness :
    tasksHoldingSlot ⟨3, 0, 1, 1⟩ ≤ 1
    ∧ (⟨3, 0, 1, 1⟩ : SemState).waiting
        + tasksHoldingSlot ⟨3, 0, 1, 1⟩
        + (⟨3, 0, 1, 1⟩ : SemState).finished = 5 := by
  have hreach : SemReachable 1 5 ⟨3, 0, 1, 1⟩ :=
    .step (.step (.step (.step (.step .init
      (.acquire 4 0 0 0 (by omega)))
      (.advance 4 0 0 0))
      (.release 4 0 0 0))
      (.acquire 3 0 0 1 (by omega)))
      (.advance 3 0 0 1)
  exact admission_slots_bounded 1 5 ⟨3, 0, 1, 1⟩ hreach

end Codalysis
